import Mathlib

/-!
# Verification of the gusto SDC / time-stepping core

Shallow embedding (over `ℚ`) of the numerical-analysis and control-flow logic
of `gusto/sdc.py`, `gusto/timeloop.py` and
`gusto/timestepping/split_timestepper.py`, together with proofs of the
specification claims about them.

External collaborators (firedrake solves, scipy root finding) enter the
embedding as explicit function or list parameters; the local logic
(node construction, integration-matrix assembly, the sweep loop, the
time loop, constructor argument binding) is translated statement by
statement from the Python source.
-/

namespace Gusto

/-! ## Quadrature node generation (`SDC.create_nodes`, sdc.py lines 296-330)

`create_nodes(b, quadrature)` builds a raw node array on the reference
interval `[-1, 1]` (for radau: `nodes[0] = A = -1` and `nodes[1:]` the sorted
roots of `(P_M + P_{M-1})/(x+1)`; for lobatto: `nodes[0] = -1`,
`nodes[-1] = 1`, interior the sorted roots of `P_{M-1}'`; for legendre: the
sorted roots of `P_M`), rescales it to `[0, b]` via
`nodes = ((b - a)*nodes + a*B - b*A)/(B - A)` with `a = 0, A = -1, B = 1`,
and finally sets `self.nodes = ((b + a) - nodes)[::-1]`.

The polynomial roots are produced by scipy; the embedding takes the sorted
root list as a parameter (`roots`), which stands for `np.sort(poly.roots)`.
-/
/-- The three quadrature kinds accepted by `SDC.create_nodes`. -/
inductive QuadKind
  | gaussRadau
  | gaussLobatto
  | gaussLegendre
deriving DecidableEq, Repr

/-- The raw node array built by the `if quadrature == ...` branches of
`create_nodes`, before rescaling: for radau the array is `[-1] + roots`,
for lobatto `[-1] + roots + [1]` (interior roots), for legendre just the
roots.  `roots` is the sorted scipy root list. -/
def refNodes : QuadKind → List ℚ → List ℚ
  | .gaussRadau, roots => -1 :: roots
  | .gaussLobatto, roots => -1 :: (roots ++ [1])
  | .gaussLegendre, roots => roots

/-- `((b - a) * x + a * B - b * A) / (B - A)` with `a = 0`, `A = -1`,
`B = 1`: the rescaling of a reference node to `[0, b]`. -/
def rescaleNode (b x : ℚ) : ℚ := ((b - 0) * x + 0 * 1 - b * (-1)) / (1 - (-1))

/-- `self.nodes = ((b + a) - nodes)[::-1]` applied after the rescaling:
the full effect of `SDC.create_nodes`. -/
def create_nodes (b : ℚ) (quadrature : QuadKind) (roots : List ℚ) : List ℚ :=
  (((refNodes quadrature roots).map (rescaleNode b)).map
    (fun x => (b + 0) - x)).reverse

/-! ## The SDC sweep engine (`FE_SDC.apply` / `BE_SDC.apply` / `IMEX_SDC.apply`,
sdc.py lines 538-597, 693-753, 859-920)

The state container (`firedrake.Function`) is modelled by an abstract type
`σ` with addition and `ℚ`-scalar multiplication (`self.quad[j] += float(S[j,k])*self.fUnodes[k]`);
the external firedrake solves are modelled by abstract functions:

* `base` is the base scheme's `apply` after `self.base.dt` was set
  (`self.base.dt = float(self.dtau[m]); self.base.apply(...)`);
* `F` is the effect of `solver_rhs.solve()` (mass-matrix inversion giving
  `Urhs` from `Uin`);
* `solveSDC_*` is the effect of `solver_SDC.solve()` as a function of the
  slots assigned immediately before the solve (`dt`, and for FE: `U0`, `Un`,
  `Q_` and the initial guess `U_SDC`; for BE additionally `U01`; for IMEX
  `U0` and `U01`);
* `solveFin` is the effect of `solver_fin.solve()` as a function of the
  slots `Un` and `quad_final`.

All control flow around those calls (the prediction march, the
`while k < self.maxk` loop, `compute_quad`, `compute_quad_final`, the
double-buffer copy-back and the final branches of `apply`) is translated
directly. -/
/-- Sequential march: `marchFrom step u i n` is the list
`[u, step i u, step (i+1) (step i u), ...]` of length `n+1` — the pattern of
both the prediction loop (`for m in range(self.M): self.base.apply(self.Unodes[m+1], self.Unodes[m])`)
and the per-node correction loop (node `m`'s update consumes node `m-1`'s
just-updated value). -/
def marchFrom {σ : Type*} (step : ℕ → σ → σ) : σ → ℕ → ℕ → List σ
  | u, _, 0 => [u]
  | u, i, Nat.succ n => u :: marchFrom step (step i u) (i+1) n

/-- The sweep loop `k = 0; while k < self.maxk: k += 1; <sweep body>`,
translated with the counter explicit. -/
def sweepLoop {α : Type*} (sweep : α → α) (maxk : ℕ) (k : ℕ) (U : α) : α :=
  if k < maxk then sweepLoop sweep maxk (k+1) (sweep U) else U
termination_by maxk - k

/-- The state of an `SDC` object after `__init__` and `setup`: configuration,
precomputed quadrature data, and the external-solver effects. -/
structure SDCParams (σ : Type*) where
  M : ℕ
  maxk : ℕ
  final_update : Bool
  nodes : List ℚ
  S : ℕ → ℕ → ℚ
  Qfin : ℕ → ℚ
  base : ℚ → σ → σ
  F : σ → σ
  solveSDC_FE : ℚ → σ → σ → σ → σ → σ
  solveSDC_BE : ℚ → σ → σ → σ → σ → σ → σ
  solveSDC_IMEX : ℚ → σ → σ → σ → σ → σ → σ
  solveFin : σ → σ → σ

/-- `self.dtau = np.diff(np.append(0, self.nodes))`. -/
def SDCParams.dtau {σ : Type*} (p : SDCParams σ) : List ℚ :=
  List.zipWith (· - ·) p.nodes (0 :: p.nodes)

section SweepEngine

variable {σ : Type*} [AddCommMonoid σ] [SMul ℚ σ]

/-- The prediction: `self.Unodes[0].assign(self.Un)` (with `Un = x_in`) and
`for m in range(self.M): self.base.dt = float(self.dtau[m]); self.base.apply(self.Unodes[m+1], self.Unodes[m])`. -/
def predictNodes (p : SDCParams σ) (x_in : σ) : List σ :=
  marchFrom (fun m u => p.base (p.dtau.getD m 0) u) x_in 0 p.M

/-- `for m in range(1, self.M+1): self.Uin.assign(self.Unodes[m]); self.solver_rhs.solve(); self.fUnodes[m-1].assign(self.Urhs)`. -/
def rhsEvals (p : SDCParams σ) (Unodes : List σ) : List σ := Unodes.tail.map p.F

/-- `SDC.compute_quad`: `self.quad[j] = sum_k S[j,k] * fUnodes[k]` for
`j, k` in `range(M)`. -/
def computeQuad (p : SDCParams σ) (fU : List σ) : List σ :=
  (List.range p.M).map
    (fun j => ((List.range p.M).map (fun k => p.S j k • fU.getD k 0)).sum)

/-- `SDC.compute_quad_final`: `quad_final = sum_k Qfin[k] * fUnodes[k]`. -/
def computeQuadFinal (p : SDCParams σ) (fU : List σ) : σ :=
  ((List.range p.M).map (fun k => p.Qfin k • fU.getD k 0)).sum

/-- One `FE_SDC` correction sweep: residual evaluations, `compute_quad`,
then the node loop `Unodes1[m] = solve(dtau[m-1], U0=Unodes[m-1],
Un=Unodes1[m-1], Q_=quad[m-1], guess=Unodes[m])` for `m = 1..M`, followed by
the copy-back `Unodes[m] = Unodes1[m]` (returned list). -/
def sweepFE (p : SDCParams σ) (Unodes : List σ) : List σ :=
  let fU := rhsEvals p Unodes
  let quad := computeQuad p fU
  marchFrom (fun i Un =>
      p.solveSDC_FE (p.dtau.getD i 0) (Unodes.getD i 0) Un (quad.getD i 0)
        (Unodes.getD (i+1) 0))
    (Unodes.headD 0) 0 p.M

/-- One `BE_SDC` correction sweep; additionally assigns `U01 = Unodes[m]`. -/
def sweepBE (p : SDCParams σ) (Unodes : List σ) : List σ :=
  let fU := rhsEvals p Unodes
  let quad := computeQuad p fU
  marchFrom (fun i Un =>
      p.solveSDC_BE (p.dtau.getD i 0) (Unodes.getD (i+1) 0) (Unodes.getD i 0) Un
        (quad.getD i 0) (Unodes.getD (i+1) 0))
    (Unodes.headD 0) 0 p.M

/-- One `IMEX_SDC` correction sweep; assigns `U0 = Unodes[m-1]` and
`U01 = Unodes[m]`. -/
def sweepIMEX (p : SDCParams σ) (Unodes : List σ) : List σ :=
  let fU := rhsEvals p Unodes
  let quad := computeQuad p fU
  marchFrom (fun i Un =>
      p.solveSDC_IMEX (p.dtau.getD i 0) (Unodes.getD i 0) (Unodes.getD (i+1) 0) Un
        (quad.getD i 0) (Unodes.getD (i+1) 0))
    (Unodes.headD 0) 0 p.M

/-- `FE_SDC.apply`: prediction, `maxk` sweeps, then either the final-update
solve (with `self.Un.assign(x_in)` before `solver_fin.solve()`), or the last
node value. -/
def FE_SDC_apply (p : SDCParams σ) (x_in : σ) : σ :=
  let Unodes := predictNodes p x_in
  let Unodes1 := sweepLoop (sweepFE p) p.maxk 0 Unodes
  if 0 < p.maxk then
    if p.final_update then
      p.solveFin x_in (computeQuadFinal p (rhsEvals p Unodes1))
    else Unodes1.getLastD x_in
  else Unodes1.getLastD x_in

/-- `BE_SDC.apply` (same skeleton as `FE_SDC.apply` with the BE sweep). -/
def BE_SDC_apply (p : SDCParams σ) (x_in : σ) : σ :=
  let Unodes := predictNodes p x_in
  let Unodes1 := sweepLoop (sweepBE p) p.maxk 0 Unodes
  if 0 < p.maxk then
    if p.final_update then
      p.solveFin x_in (computeQuadFinal p (rhsEvals p Unodes1))
    else Unodes1.getLastD x_in
  else Unodes1.getLastD x_in

/-- `IMEX_SDC.apply`.  In the `maxk > 0, final_update = False` branch the
source reads `x_out.assign(self.Un)` where `Un` was assigned
`self.Unodes1[-1]` at the end of the last executed sweep, i.e. the last node
value of the loop result, as written here. -/
def IMEX_SDC_apply (p : SDCParams σ) (x_in : σ) : σ :=
  let Unodes := predictNodes p x_in
  let Unodes1 := sweepLoop (sweepIMEX p) p.maxk 0 Unodes
  if 0 < p.maxk then
    if p.final_update then
      p.solveFin x_in (computeQuadFinal p (rhsEvals p Unodes1))
    else Unodes1.getLastD x_in
  else Unodes1.getLastD x_in

end SweepEngine

/-- The spec's description of the prediction output ("marching the supplied
base low-order scheme sequentially across the M sub-intervals, i.e. the
value at the last quadrature node of the base-scheme trajectory"), written
independently of the engine: fold the base scheme over the sub-interval
widths. -/
def basePredictionLastNode {τ : Type*} (base : ℚ → τ → τ) : List ℚ → τ → τ
  | [], y => y
  | d :: ds, y => basePredictionLastNode base ds (base d y)

/-- A concrete scalar (`σ = ℚ`) SDC configuration with `maxk = 0`, used to
witness `C2_maxk_zero`. -/
def pW0 : SDCParams ℚ where
  M := 1
  maxk := 0
  final_update := true
  nodes := [1]
  S := fun _ _ => 1
  Qfin := fun _ => 1
  base := fun d u => u + d
  F := id
  solveSDC_FE := fun _ _ Un Q _ => Un + Q
  solveSDC_BE := fun _ _ _ Un Q _ => Un + Q
  solveSDC_IMEX := fun _ _ _ Un Q _ => Un + Q
  solveFin := fun yn qf => yn + qf

/-- The same concrete configuration with `maxk = 1`, used to witness
`C5_final_update`. -/
def pW1 : SDCParams ℚ :=
  { pW0 with maxk := 1 }

/-! ## The outer time loop (`Timestepper.run`, timeloop.py lines 105-149)

The loop is `while t < tmax - 0.5*dt: ...; t += dt; <timestep>; ...`.
`runLoop dt tmax fuel t` records the start time of every executed
iteration; `fuel` is a step budget used only to make the recursion
structural (the loop itself has no such budget), so every statement below
holds for every `fuel`. -/
/-- The `while t < tmax - 0.5*dt` loop of `Timestepper.run`, returning the
list of start times `t` at which an iteration (one `t += dt` plus one
`timestep()`) executes. -/
def runLoop (dt tmax : ℚ) : ℕ → ℚ → List ℚ
  | 0, _ => []
  | Nat.succ fuel, t =>
      if t < tmax - 0.5 * dt then t :: runLoop dt tmax fuel (t + dt) else []

/-! ## Constructor argument binding (`SDC.__init__` vs the subclass
`super().__init__` calls, sdc.py lines 63-65, 487-490, 623-626, 779-782)

`SDC.__init__(self, base_scheme, domain, M, maxk, quadrature, ...)` has five
required positional parameters.  All three subclasses (`FE_SDC`, `BE_SDC`,
`IMEX_SDC`) invoke
`super().__init__(domain, M, maxk, quadrature, field_name=..., linear_solver_parameters=..., nonlinear_solver_parameters=..., final_update=...)`
— four positional arguments and four keyword arguments, with `base_scheme`
not passed.  Python's call binding (modelled by `bindCall`) assigns
positional arguments to parameters in order and raises `TypeError` before
the function body runs when a parameter without a default stays unbound. -/
/-- The required positional parameters of `SDC.__init__` (those without
defaults), in order, excluding `self`. -/
def sdcInitRequiredParams : List String :=
  ["base_scheme", "domain", "M", "maxk", "quadrature"]

/-- The defaulted parameters of `SDC.__init__`, in order. -/
def sdcInitOptionalParams : List String :=
  ["field_name", "linear_solver_parameters", "nonlinear_solver_parameters",
   "final_update", "limiter", "options"]

/-- The positional argument expressions of the `super().__init__` call made
by each of `FE_SDC.__init__`, `BE_SDC.__init__` and `IMEX_SDC.__init__`
(identical in all three), named by the local variable each passes. -/
def superCallPositionalArgs : List String := ["domain", "M", "maxk", "quadrature"]

/-- The keyword-argument names of the same `super().__init__` call. -/
def superCallKeywordNames : List String :=
  ["field_name", "linear_solver_parameters", "nonlinear_solver_parameters",
   "final_update"]

/-- Modelled from Python call semantics: bind positional arguments to the
first parameters in order, then keyword arguments by name; raise
`TypeError` (before any of the body executes) if a required parameter is
left unbound, a keyword is unknown, or a parameter receives two values.
On success, return the positional binding. -/
def bindCall (required optionalP posArgs kwNames : List String) :
    Except String (List (String × String)) :=
  let params := required ++ optionalP
  if params.length < posArgs.length then
    .error "TypeError: too many positional arguments"
  else if kwNames.any (fun k => !(params.contains k)) then
    .error "TypeError: unexpected keyword argument"
  else if kwNames.any (fun k => (params.take posArgs.length).contains k) then
    .error "TypeError: multiple values for argument"
  else
    match required.find? (fun p =>
        !((params.take posArgs.length).contains p) && !(kwNames.contains p)) with
    | some p => .error ("TypeError: missing required positional argument: " ++ p)
    | none => .ok (params.zip posArgs)

/-! ## The `SplitTimestepper` coverage check
(split_timestepper.py lines 79-94)

The term-splitting coverage check in `SplitTimestepper.__init__` evaluates
`self.residual.label_map(lambda t: t.has_label(label), map_if_true=keep)`.
The module imports only `Label` and `drop` from `firedrake.fml` (and the
other names listed below); `keep` is not bound anywhere in the file, so
evaluating the argument expression `keep` raises `NameError` — for every
configuration, covering or not — and the intended
`raise ValueError('The term_splitting list ... has not covered all terms')`
on line 94 is unreachable. -/
/-- Python error values relevant to the `SplitTimestepper` constructor. -/
inductive PyError
  | nameError (missingName : String)
  | valueError (msg : String)
deriving DecidableEq, Repr

/-- The names bound at module scope in `split_timestepper.py` (its import
list, lines 3-9, plus the class names it defines). -/
def splitTimestepperImports : List String :=
  ["Projector", "Label", "drop", "timed_stage", "TimeLevelFields", "StateFields",
   "time_derivative", "physics_label", "dynamics_label",
   "ExplicitTimeDiscretisation", "BaseTimestepper", "Timestepper"]

/-- The coverage-check portion of `SplitTimestepper.__init__`
(lines 79-94): resolve the name `keep` (eagerly evaluated as a call
argument); were it bound, drop the covered terms and raise `ValueError`
when uncovered terms remain (`uncoveredTerms` counts the terms of the
equation not covered by any label in `term_splitting`). -/
def splitTimestepperCoverageCheck (moduleNames : List String)
    (uncoveredTerms : ℕ) : Except PyError Unit :=
  if moduleNames.contains "keep" then
    if 0 < uncoveredTerms then
      .error (.valueError
        "The term_splitting list for the SplitTimestepper has not covered all terms in the equation.")
    else .ok ()
  else .error (.nameError "keep")

/-! ## `SDC.__init__` solver-parameter handling (sdc.py lines 132-146)

```
if linear_solver_parameters is None:
    self.linear_solver_parameters = {...defaults...}
    self.linear_solver_parameters = linear_solver_parameters
# (no else)
if nonlinear_solver_parameters is None:
    self.nonlinear_solver_parameters = {...defaults...}
else:
    self.nonlinear_solver_parameters = nonlinear_solver_parameters
```
An attribute slot is modelled as `Option (Option dict)`: `none` = never
assigned (reading it would raise `AttributeError`), `some v` = assigned the
Python value `v` (where the inner `none` is Python `None`). -/
/-- The two solver-parameter attribute slots after the `__init__` fragment. -/
structure SolverParamsState where
  linear_solver_parameters : Option (Option (List (String × String)))
  nonlinear_solver_parameters : Option (Option (List (String × String)))
deriving DecidableEq, Repr

/-- The default dictionary built in the `linear_solver_parameters is None`
branch. -/
def defaultLinearSolverParameters : List (String × String) :=
  [("snes_type", "ksponly"), ("ksp_type", "cg"), ("pc_type", "bjacobi"),
   ("sub_pc_type", "ilu")]

/-- The default dictionary built in the `nonlinear_solver_parameters is
None` branch. -/
def defaultNonlinearSolverParameters : List (String × String) :=
  [("snes_type", "newtonls"), ("ksp_type", "gmres"), ("pc_type", "bjacobi"),
   ("sub_pc_type", "ilu")]

/-- The solver-parameter fragment of `SDC.__init__`: in the `None` branch
the default dictionary is stored and then immediately overwritten by the
(None) argument; the non-`None` case has no `else`, so the linear slot is
never assigned there. -/
def initSolverParameters (linear nonlinear : Option (List (String × String))) :
    SolverParamsState :=
  let linearSlot : Option (Option (List (String × String))) :=
    if linear = none then
      let _firstAssignment := some (some defaultLinearSolverParameters)
      let secondAssignment := some linear
      secondAssignment
    else none
  let nonlinearSlot : Option (Option (List (String × String))) :=
    if nonlinear = none then some (some defaultNonlinearSolverParameters)
    else some nonlinear
  { linear_solver_parameters := linearSlot,
    nonlinear_solver_parameters := nonlinearSlot }

/-! ## Integration matrices (`SDC.get_weights` / `Qmatrix` / `Smatrix` /
`Qfinal`, sdc.py lines 332-433)

`get_weights(b)` integrates each Lagrange basis polynomial through the
quadrature nodes over `[0, b]`: it builds the Newton-Vandermonde matrix
(`NewtonVM`), solves the lower-triangular system
`scipy.linalg.solve_triangular(NewtonVM(nodes), e_j, lower=True)` (forward
substitution, `solveLowerTri`) for the Newton-form coefficients of the j-th
Lagrange basis polynomial, evaluates it via the Newton-Horner scheme
(`Horner_newton`) at the `ceil(M/2)`-point Gauss-Legendre sub-quadrature
nodes produced by `gauss_legendre`, and dots with the sub-quadrature
weights.  `Qmatrix` runs this for `b = nodes[m]` per row, `Qfinal` for
`b = dt`, and `Smatrix` takes first differences of `Q`'s rows.

Polynomials appearing in the code (np.poly1d values) are embedded as
rational coefficient lists, lowest degree first; `polyEvalL` is `np.polyval`.
The roots of the degree-n Legendre polynomial (found numerically by scipy
inside `gauss_legendre`) enter as the parameter `glRoots`; the recurrence
for the Legendre coefficients themselves is computed exactly (`legendreL`),
as is the weight formula `2/((1-x^2)*P_n'(x)^2)`.

To state exactness, `integL c a b` is the exact integral over `[a, b]` of
the polynomial with coefficient list `c` (the antiderivative evaluated at
the endpoints). -/
-- list polynomial helpers (np.poly1d analogues, coefficients lowest-first)
def polyEvalL (c : List ℚ) (x : ℚ) : ℚ := c.foldr (fun a acc => a + x * acc) 0

def polyMulXL (c : List ℚ) : List ℚ := 0 :: c

def polyScaleL (s : ℚ) (c : List ℚ) : List ℚ := c.map (s * ·)

def polySubL (c d : List ℚ) : List ℚ :=
  List.zipWithAll (fun a b => a.getD 0 - b.getD 0) c d

def derivL (c : List ℚ) : List ℚ :=
  (List.range (c.length - 1)).map (fun i => (((i:ℕ)+1 : ℚ)) * c.getD (i+1) 0)

def legendreL : ℕ → List ℚ
  | 0 => [1]
  | 1 => [0, 1]
  | Nat.succ (Nat.succ n) =>
      polySubL
        (polyScaleL ((2*((n:ℚ)+1)+1)/((n:ℚ)+2)) (polyMulXL (legendreL (n+1))))
        (polyScaleL (((n:ℚ)+1)/((n:ℚ)+2)) (legendreL n))

def dotL (a b : List ℚ) : ℚ := (List.zipWith (· * ·) a b).sum

def gauss_legendre (roots : List ℚ) (n : ℕ) (b : ℚ) : List ℚ × List ℚ :=
  let polyd := derivL (legendreL n)
  let weights := roots.map (fun x => 2 / ((1 - x^2) * (polyEvalL polyd x)^2))
  (roots.map (fun x => ((b - 0) * x + 0 * 1 - b * (-1)) / (1 - (-1))),
   weights.map (fun w => (b - 0) / (1 - (-1)) * w))

def NewtonVM (t : List ℚ) (r : ℕ) : ℕ → ℚ
  | 0 => 1
  | Nat.succ i => (t.getD r 0 - t.getD i 0) * NewtonVM t r i

def Horner_newton : List ℚ → List ℚ → ℚ → ℚ
  | [], _, _ => 0
  | w :: ws, xi, x => w + (x - xi.headD 0) * Horner_newton ws xi.tail x

def solveLowerTri (A : ℕ → ℕ → ℚ) (bv : ℕ → ℚ) : ℕ → List ℚ
  | 0 => []
  | Nat.succ n =>
      let c := solveLowerTri A bv n
      c ++ [(bv n - ((List.range n).map (fun i => A n i * c.getD i 0)).sum) / A n n]

def get_weights (t glRoots : List ℚ) (b : ℚ) : List ℚ :=
  let sub := gauss_legendre glRoots ((t.length + 1) / 2) b
  (List.range t.length).map (fun j =>
    let coeff : ℕ → ℚ := fun r => if r = j then 1 else 0
    let poly_coeffs := solveLowerTri (NewtonVM t) coeff t.length
    let eval_newt_poly := sub.1.map (Horner_newton poly_coeffs t)
    dotL sub.2 eval_newt_poly)

def Qmatrix (t glRoots : List ℚ) : List (List ℚ) :=
  t.map (fun node => get_weights t glRoots node)

def Smatrix (Q : List (List ℚ)) : List (List ℚ) :=
  (List.range Q.length).map (fun m =>
    if m = 0 then Q.getD 0 []
    else List.zipWith (· - ·) (Q.getD m []) (Q.getD (m-1) []))

/-- numpy basic indexing of row `i` of a 2-d array: an integer index into an
axis of size `0` (or any out-of-bounds index) raises `IndexError`. -/
def npGetRow (Q : List (List ℚ)) (i : ℕ) : Except String (List ℚ) :=
  if i < Q.length then .ok (Q.getD i [])
  else .error "IndexError: index is out of bounds for axis 0"

/-- `SDC.Smatrix` with its error path: the unconditional
`self.S[0, :] = deepcopy(self.Q[0, :])` (sdc.py line 431) reads row 0 of `Q`
before anything else, so for a `0 x 0` `Q` (that is, `M = 0`) the method
raises `IndexError`; for `M >= 1` it builds the matrix of `Smatrix`
(see `Smatrix_np_pos`). -/
def Smatrix_np (Q : List (List ℚ)) : Except String (List (List ℚ)) := do
  let row0 ← npGetRow Q 0
  .ok (row0 :: (List.range' 1 (Q.length - 1)).map (fun m =>
    List.zipWith (· - ·) (Q.getD m []) (Q.getD (m-1) [])))

def Qfinal (t glRoots : List ℚ) (dt : ℚ) : List ℚ := get_weights t glRoots dt

/-- The matrix-setup sequence of `SDC.__init__` (sdc.py lines 148-153):
`self.create_nodes(...); self.Qmatrix(); self.Smatrix(); self.Qfinal()` —
run in order with no validation of `M` anywhere, and with the numpy
row-0 read of `Smatrix` modelled (`Smatrix_np`), so an `IndexError` there
aborts the construction before `Qfinal` runs. -/
def sdcSetup (b : ℚ) (q : QuadKind) (roots glRoots : List ℚ) :
    Except String (List ℚ × List (List ℚ) × List (List ℚ) × List ℚ) := do
  let nodes := create_nodes b q roots
  let Q := Qmatrix nodes glRoots
  let S ← Smatrix_np Q
  let Qfin := Qfinal nodes glRoots b
  .ok (nodes, Q, S, Qfin)

def integL (c : List ℚ) (a b : ℚ) : ℚ :=
  ((List.range c.length).map
    (fun i => c.getD i 0 * (b^(i+1) - a^(i+1)) / ((i:ℚ)+1))).sum


/-- Newton basis product: value of the degree-`i` Newton basis polynomial
`(x - t_0)...(x - t_{i-1})` at `x`. -/
def nbp (xi : List ℚ) (x : ℚ) (i : ℕ) : ℚ :=
  ((List.range i).map (fun l => x - xi.getD l 0)).prod

/-- The column-`j` data of `get_weights`: `coeff = e_j`;
`poly_coeffs = scipy.linalg.solve_triangular(NewtonVM(nodes), coeff, lower=True)`
(forward substitution, `solveLowerTri`). -/
def lagrangeCoeffs (t : List ℚ) (j : ℕ) : List ℚ :=
  solveLowerTri (NewtonVM t) (fun r => if r = j then 1 else 0) t.length

noncomputable def ofList (c : List ℚ) : Polynomial ℚ :=
  ∑ i in Finset.range c.length, Polynomial.C (c.getD i 0) * Polynomial.X ^ i

noncomputable def newtonPoly (c xi : List ℚ) : Polynomial ℚ :=
  ∑ i in Finset.range c.length,
    Polynomial.C (c.getD i 0)
      * ∏ l in Finset.range i, (Polynomial.X - Polynomial.C (xi.getD l 0))

/-! ## Lemmas and claim theorems -/

lemma rescaleNode_eq (b x : ℚ) : rescaleNode b x = (b * x + b) / 2 := by
  unfold rescaleNode; ring

lemma create_nodes_eq_map (b : ℚ) (q : QuadKind) (roots : List ℚ) :
    create_nodes b q roots
      = ((refNodes q roots).map (fun x => b - (b * x + b) / 2)).reverse := by
  unfold create_nodes
  rw [List.map_map]
  congr 1
  refine List.map_congr_left (fun x _ => ?_)
  simp [rescaleNode_eq]

lemma refNodes_chain (q : QuadKind) (roots : List ℚ)
    (hchain : roots.Chain' (· < ·))
    (hrange : ∀ r ∈ roots, -1 < r ∧ r < 1) :
    (refNodes q roots).Chain' (· < ·) := by
  cases q with
  | gaussRadau =>
      rw [refNodes, List.chain'_cons']
      refine ⟨fun h hh => ?_, hchain⟩
      exact (hrange h (List.mem_of_mem_head? hh)).1
  | gaussLobatto =>
      rw [refNodes, List.chain'_cons']
      constructor
      · intro h hh
        rcases List.mem_append.mp (List.mem_of_mem_head? hh) with hr | hr
        · exact (hrange h hr).1
        · simp only [List.mem_singleton] at hr
          subst hr; norm_num
      · rw [List.chain'_append]
        refine ⟨hchain, List.chain'_singleton 1, fun x hx y hy => ?_⟩
        simp only [List.head?_cons, Option.mem_some_iff] at hy
        subst hy
        exact (hrange x (List.mem_of_mem_getLast? hx)).2
  | gaussLegendre => exact hchain

lemma refNodes_range (q : QuadKind) (roots : List ℚ)
    (hrange : ∀ r ∈ roots, -1 < r ∧ r < 1) :
    ∀ y ∈ refNodes q roots, -1 ≤ y ∧ y ≤ 1 := by
  intro y hy
  cases q with
  | gaussRadau =>
      rcases List.mem_cons.mp hy with h | h
      · subst h; norm_num
      · exact ⟨le_of_lt (hrange y h).1, le_of_lt (hrange y h).2⟩
  | gaussLobatto =>
      rcases List.mem_cons.mp hy with h | h
      · subst h; norm_num
      · rcases List.mem_append.mp h with h | h
        · exact ⟨le_of_lt (hrange y h).1, le_of_lt (hrange y h).2⟩
        · simp only [List.mem_singleton] at h; subst h; norm_num
  | gaussLegendre => exact ⟨le_of_lt (hrange y hy).1, le_of_lt (hrange y hy).2⟩

/-- C1 (amended): for every interval length `Δt = b > 0`, every quadrature
kind, and every sorted scipy root list lying in `(-1, 1)` (as the Legendre /
Radau / Lobatto-interior roots do for every `M`, in particular
`M ∈ {2,3,4,5}`), the node sequence produced by `create_nodes` over `[0, Δt]`
is strictly increasing and lies within `[0, Δt]`; for Lobatto,
`node[0] = 0` and `node[M-1] = Δt`; but for Radau the reflection step
`((b + a) - nodes)[::-1]` moves the fixed endpoint to the right end:
`node[M-1] = Δt` and `node[0] > 0` (not `node[0] = 0` as claimed). -/
theorem C1_nodes (b : ℚ) (q : QuadKind) (roots : List ℚ)
    (hb : 0 < b) (hchain : roots.Chain' (· < ·))
    (hrange : ∀ r ∈ roots, -1 < r ∧ r < 1) :
    (create_nodes b q roots).Chain' (· < ·) ∧
    (∀ x ∈ create_nodes b q roots, 0 ≤ x ∧ x ≤ b) ∧
    ((create_nodes b .gaussLobatto roots).getD 0 (b + 1) = 0 ∧
      (create_nodes b .gaussLobatto roots).getLastD (b + 1) = b) ∧
    ((create_nodes b .gaussRadau roots).getLastD (b + 1) = b ∧
      0 < (create_nodes b .gaussRadau roots).getD 0 (b + 1)) := by
  have hmono : ∀ x y : ℚ, x < y → b - (b * y + b) / 2 < b - (b * x + b) / 2 := by
    intro x y hxy
    have : b * x < b * y := by nlinarith
    linarith
  refine ⟨?_, ?_, ?_, ?_⟩
  · rw [create_nodes_eq_map, List.chain'_reverse]
    rw [List.chain'_map]
    exact (refNodes_chain q roots hchain hrange).imp (fun a c h => hmono a c h)
  · intro x hx
    rw [create_nodes_eq_map, List.mem_reverse, List.mem_map] at hx
    obtain ⟨y, hy, rfl⟩ := hx
    obtain ⟨h1, h2⟩ := refNodes_range q roots hrange y hy
    constructor
    · nlinarith
    · nlinarith
  · rw [create_nodes_eq_map]
    rw [refNodes]
    rw [List.map_cons, List.map_append, List.map_singleton, List.reverse_cons,
      List.reverse_append]
    have h1 : b - (b * (1:ℚ) + b) / 2 = 0 := by ring
    have hm1 : b - (b * (-1:ℚ) + b) / 2 = b := by ring
    rw [h1, hm1]
    constructor
    · simp
    · rw [List.getLastD_concat]
  · rw [create_nodes_eq_map, refNodes, List.map_cons, List.reverse_cons]
    have hm1 : b - (b * (-1:ℚ) + b) / 2 = b := by ring
    rw [hm1]
    refine ⟨List.getLastD_concat _ _ _, ?_⟩
    have hpos : ∀ x ∈ (roots.map (fun x => b - (b * x + b) / 2)).reverse ++ [b], 0 < x := by
      intro x hx
      rcases List.mem_append.mp hx with h | h
      · rw [List.mem_reverse, List.mem_map] at h
        obtain ⟨y, hy, rfl⟩ := h
        have := (hrange y hy).2
        nlinarith
      · simp only [List.mem_singleton] at h; subst h; exact hb
    have hlen : 0 < ((roots.map (fun x => b - (b * x + b) / 2)).reverse ++ [b]).length := by
      simp
    rw [List.getD_eq_getElem _ _ hlen]
    exact hpos _ (List.getElem_mem hlen)

/-- C1 (counterexample to the claim as stated): for Gauss-Radau with `M = 2`
and `Δt = 1` the raw polynomial `(P_2 + P_1)/(x + 1) = (3x - 1)/2` has the
single (exactly rational) root `1/3`, so scipy's sorted root list is
`[1/3]`.  The produced nodes are `[1/3, 1]`: `node[0] = 1/3 ≠ 0`, refuting
"for Radau, node[0] = 0". -/
theorem C1_counterexample :
    create_nodes 1 .gaussRadau [1/3] = [1/3, 1] ∧
      (create_nodes 1 .gaussRadau [1/3]).getD 0 0 ≠ 0 := by
  constructor
  · norm_num [create_nodes, refNodes, rescaleNode]
  · norm_num [create_nodes, refNodes, rescaleNode]

/-- Witness for `C1_nodes` at the concrete input `b = 1`, Lobatto `M = 3`
(interior root list `[0]`, the exact root of `P_2' = 3x`). -/
theorem C1_nodes_witness :
    (0:ℚ) < 1 ∧
    ((create_nodes 1 .gaussLobatto [0]).Chain' (· < ·) ∧
    (∀ x ∈ create_nodes 1 .gaussLobatto [0], 0 ≤ x ∧ x ≤ 1) ∧
    ((create_nodes 1 .gaussLobatto [0]).getD 0 (1 + 1) = 0 ∧
      (create_nodes 1 .gaussLobatto [0]).getLastD (1 + 1) = 1) ∧
    ((create_nodes 1 .gaussRadau [0]).getLastD (1 + 1) = 1 ∧
      0 < (create_nodes 1 .gaussRadau [0]).getD 0 (1 + 1))) :=
  ⟨by norm_num,
   C1_nodes 1 .gaussLobatto [0] (by norm_num) (by simp)
     (by intro r hr; simp only [List.mem_singleton] at hr; subst hr; norm_num)⟩

lemma sweepLoop_eq_iterate_sub {α : Type*} (f : α → α) (maxk : ℕ) :
    ∀ (n k : ℕ) (U : α), maxk - k = n → sweepLoop f maxk k U = f^[n] U := by
  intro n
  induction n with
  | zero =>
      intro k U h
      rw [sweepLoop]
      rw [if_neg (by omega)]
      rfl
  | succ n ih =>
      intro k U h
      rw [sweepLoop, if_pos (by omega)]
      rw [ih (k+1) (f U) (by omega), Function.iterate_succ_apply]

lemma marchFrom_getLastD {τ : Type*} (base : ℚ → τ → τ) (L : List ℚ) :
    ∀ (suf pre : List ℚ) (x : τ) (d : τ), pre ++ suf = L →
      (marchFrom (fun m u => base (L.getD m 0) u) x pre.length suf.length).getLastD d
        = basePredictionLastNode base suf x := by
  intro suf
  induction suf with
  | nil =>
      intro pre x d _
      rfl
  | cons a as ih =>
      intro pre x d hL
      show (x :: marchFrom _ _ _ _).getLastD d = _
      rw [List.getLastD_cons]
      have hgd : L.getD pre.length 0 = a := by
        subst hL
        rw [List.getD_eq_getElem?_getD, List.getElem?_append_right (le_refl _)]
        simp
      have hpre1 : pre.length + 1 = (pre ++ [a]).length := by simp
      have hL' : (pre ++ [a]) ++ as = L := by subst hL; simp
      have := ih (pre ++ [a]) (base (L.getD pre.length 0) x) x hL'
      rw [hpre1]
      rw [this, hgd]
      rfl

lemma dtau_length {σ : Type*} (p : SDCParams σ) : p.dtau.length = p.nodes.length := by
  unfold SDCParams.dtau
  rw [List.length_zipWith]
  simp [min_eq_left]

lemma predictNodes_getLastD {σ : Type*} [AddCommMonoid σ] [SMul ℚ σ]
    (p : SDCParams σ) (x d : σ) (hlen : p.nodes.length = p.M) :
    (predictNodes p x).getLastD d = basePredictionLastNode p.base p.dtau x := by
  unfold predictNodes
  have h : p.M = p.dtau.length := by rw [dtau_length, hlen]
  rw [h]
  exact marchFrom_getLastD p.base p.dtau p.dtau [] x d (by simp)

/-- C2: with `maxk = 0` the `while` loop body never runs and all three
`apply` variants return exactly the prediction obtained by marching the base
scheme across the `M` sub-intervals — the value at the last quadrature node
of the base-scheme trajectory, unmodified. -/
theorem C2_maxk_zero {σ : Type*} [AddCommMonoid σ] [SMul ℚ σ]
    (p : SDCParams σ) (x : σ)
    (hk : p.maxk = 0) (hlen : p.nodes.length = p.M) :
    FE_SDC_apply p x = basePredictionLastNode p.base p.dtau x ∧
    BE_SDC_apply p x = basePredictionLastNode p.base p.dtau x ∧
    IMEX_SDC_apply p x = basePredictionLastNode p.base p.dtau x := by
  have hloop : ∀ (f : List σ → List σ) (U : List σ), sweepLoop f 0 0 U = U := by
    intro f U
    rw [sweepLoop_eq_iterate_sub f 0 0 0 U rfl]
    rfl
  refine ⟨?_, ?_, ?_⟩ <;>
    simp only [FE_SDC_apply, BE_SDC_apply, IMEX_SDC_apply, hk, hloop, lt_irrefl,
      if_false, if_neg (lt_irrefl 0)] <;>
    exact predictNodes_getLastD p x x hlen

/-- C5: with `maxk > 0` and `final_update = true`, every variant's output is
`solver_fin` applied with the `Un` slot holding the ORIGINAL step start
value `x_in` (reassigned by `self.Un.assign(x_in)` just before the final
solve — not the last sweep's last-node value) and the `quad_final` slot
holding the `Qfin`-weighted quadrature of the residual evaluations at the
last sweep's node values. -/
theorem C5_final_update {σ : Type*} [AddCommMonoid σ] [SMul ℚ σ]
    (p : SDCParams σ) (x : σ)
    (hk : 0 < p.maxk) (hf : p.final_update = true) :
    FE_SDC_apply p x
      = p.solveFin x (computeQuadFinal p
          (rhsEvals p (sweepLoop (sweepFE p) p.maxk 0 (predictNodes p x)))) ∧
    BE_SDC_apply p x
      = p.solveFin x (computeQuadFinal p
          (rhsEvals p (sweepLoop (sweepBE p) p.maxk 0 (predictNodes p x)))) ∧
    IMEX_SDC_apply p x
      = p.solveFin x (computeQuadFinal p
          (rhsEvals p (sweepLoop (sweepIMEX p) p.maxk 0 (predictNodes p x)))) := by
  refine ⟨?_, ?_, ?_⟩ <;>
    simp only [FE_SDC_apply, BE_SDC_apply, IMEX_SDC_apply, if_pos hk, hf, if_true]

/-- C6: the sweep loop `k = 0; while k < maxk: k += 1; <body>` executes its
body exactly `maxk` times and terminates, for EVERY body `f` — in
particular the iteration count is independent of any data computed by the
body, so there is no residual- or convergence-based early exit, and no sweep
beyond `maxk`. -/
theorem C6_sweep_count {α : Type*} (f : α → α) (maxk : ℕ) (U : α) :
    sweepLoop f maxk 0 U = f^[maxk] U :=
  sweepLoop_eq_iterate_sub f maxk maxk 0 U (Nat.sub_zero maxk)

/-- Witness for `C2_maxk_zero` at the concrete scalar configuration `pW0`
and input `2`. -/
theorem C2_maxk_zero_witness :
    pW0.maxk = 0 ∧ pW0.nodes.length = pW0.M ∧
    (FE_SDC_apply pW0 (2:ℚ) = basePredictionLastNode pW0.base pW0.dtau 2 ∧
     BE_SDC_apply pW0 (2:ℚ) = basePredictionLastNode pW0.base pW0.dtau 2 ∧
     IMEX_SDC_apply pW0 (2:ℚ) = basePredictionLastNode pW0.base pW0.dtau 2) :=
  ⟨rfl, rfl, C2_maxk_zero pW0 2 rfl rfl⟩

/-- Witness for `C5_final_update` at the concrete scalar configuration `pW1`
and input `2`. -/
theorem C5_final_update_witness :
    0 < pW1.maxk ∧ pW1.final_update = true ∧
    (FE_SDC_apply pW1 (2:ℚ)
      = pW1.solveFin 2 (computeQuadFinal pW1
          (rhsEvals pW1 (sweepLoop (sweepFE pW1) pW1.maxk 0 (predictNodes pW1 2)))) ∧
     BE_SDC_apply pW1 (2:ℚ)
      = pW1.solveFin 2 (computeQuadFinal pW1
          (rhsEvals pW1 (sweepLoop (sweepBE pW1) pW1.maxk 0 (predictNodes pW1 2)))) ∧
     IMEX_SDC_apply pW1 (2:ℚ)
      = pW1.solveFin 2 (computeQuadFinal pW1
          (rhsEvals pW1 (sweepLoop (sweepIMEX pW1) pW1.maxk 0 (predictNodes pW1 2))))) :=
  ⟨Nat.one_pos, rfl, C5_final_update pW1 2 Nat.one_pos rfl⟩

/-- C7 (counterexample to the claim as stated): with `dt = 1`,
`tmax = 12/5` and current time `t = 2` we have `t < tmax`, yet
`Timestepper.run` takes no step from `t`: its loop condition is
`t < tmax - 0.5*dt`, i.e. `2 < 1.9`, which fails. -/
theorem C7_counterexample :
    runLoop 1 (12/5) 5 2 = [] ∧ (2:ℚ) < 12/5 := by
  constructor
  · rw [runLoop, if_neg (by norm_num)]
  · norm_num

lemma runLoop_head? (dt tmax : ℚ) (n : ℕ) (t : ℚ) :
    ∀ y ∈ (runLoop dt tmax n t).head?, y = t := by
  intro y hy
  cases n with
  | zero => simp [runLoop] at hy
  | succ m =>
      rw [runLoop] at hy
      by_cases h : t < tmax - 0.5 * dt
      · rw [if_pos h] at hy
        simp only [List.head?_cons, Option.mem_some_iff] at hy
        exact hy.symm
      · rw [if_neg h] at hy; simp at hy

/-- C7 (amended): `Timestepper.run` iterates with fixed step size `Δt`
(consecutive start times differ by exactly `dt`), taking a step for every
start time `t` with `t < tmax - 0.5*Δt` — not `t < tmax` — and it enters
the loop from start time `t` if and only if that condition holds. -/
theorem C7_run_loop (dt tmax : ℚ) (fuel : ℕ) (t : ℚ) :
    (∀ s ∈ runLoop dt tmax fuel t, s < tmax - 0.5 * dt) ∧
    (runLoop dt tmax fuel t).Chain' (fun a b => b = a + dt) ∧
    (runLoop dt tmax (fuel + 1) t = [] ↔ tmax - 0.5 * dt ≤ t) := by
  refine ⟨?_, ?_, ?_⟩
  · induction fuel generalizing t with
    | zero => intro s hs; simp [runLoop] at hs
    | succ n ih =>
        intro s hs
        rw [runLoop] at hs
        by_cases h : t < tmax - 0.5 * dt
        · rw [if_pos h] at hs
          rcases List.mem_cons.mp hs with rfl | hs
          · exact h
          · exact ih (t + dt) s hs
        · rw [if_neg h] at hs; simp at hs
  · induction fuel generalizing t with
    | zero => simp [runLoop]
    | succ n ih =>
        rw [runLoop]
        by_cases h : t < tmax - 0.5 * dt
        · rw [if_pos h, List.chain'_cons']
          exact ⟨fun y hy => runLoop_head? dt tmax n (t + dt) y hy, ih (t + dt)⟩
        · rw [if_neg h]; simp
  · rw [runLoop]
    by_cases h : t < tmax - 0.5 * dt
    · rw [if_pos h]
      constructor
      · intro hc; exact absurd hc (List.cons_ne_nil _ _)
      · intro hle; exact absurd h (not_lt.mpr hle)
    · rw [if_neg h]
      exact ⟨fun _ => not_lt.mp h, fun _ => rfl⟩

/-- C3: the `super().__init__` call shared by `FE_SDC`, `BE_SDC` and
`IMEX_SDC` fails to bind: `domain`, `M`, `maxk` and `quadrature` are each
shifted one positional slot left (the caller's `domain` lands in
`base_scheme`, etc.), the required parameter `quadrature` is never
supplied, and the call raises `TypeError` before any field of the object
is initialised.  This holds for every combination of constructor argument
values, since the call shape is fixed in the source. -/
theorem C3_super_call :
    bindCall sdcInitRequiredParams sdcInitOptionalParams
        superCallPositionalArgs superCallKeywordNames
      = .error "TypeError: missing required positional argument: quadrature" ∧
    sdcInitRequiredParams.zip superCallPositionalArgs
      = [("base_scheme", "domain"), ("domain", "M"), ("M", "maxk"),
         ("maxk", "quadrature")] := by
  constructor
  · rfl
  · rfl

/-- C9 (code evaluated at the failing input): for every configuration —
in particular every one with uncovered terms — `SplitTimestepper`
construction raises `NameError` over the unbound name `keep`, not the
intended `ValueError` configuration error; the construction does fail
before any timestep, but not with the configuration error the claim
describes, and not selectively on non-covering configurations. -/
theorem C9_coverage_check (uncoveredTerms : ℕ) :
    splitTimestepperCoverageCheck splitTimestepperImports uncoveredTerms
      = .error (.nameError "keep") := rfl

/-- C10: after `SDC.__init__` with `linear_solver_parameters = None` the
attribute holds `None` (the default dictionary is dead); with a non-`None`
dictionary the attribute is never assigned at all. -/
theorem C10_linear_params (nonlinear : Option (List (String × String))) :
    (initSolverParameters none nonlinear).linear_solver_parameters = some none ∧
    ∀ d, (initSolverParameters (some d) nonlinear).linear_solver_parameters
        = none := by
  constructor
  · by_cases h : nonlinear = none <;>
      simp [initSolverParameters, h]
  · intro d
    by_cases h : nonlinear = none <;>
      simp [initSolverParameters, h]

lemma list_sum_eq_sum_range (l : List ℚ) :
    l.sum = ∑ i in Finset.range l.length, l.getD i 0 := by
  induction l with
  | nil => simp
  | cons a tl ih =>
      rw [List.sum_cons, List.length_cons, Finset.sum_range_succ', ih]
      simp [List.getD_cons_succ, List.getD_cons_zero, add_comm]

lemma dotL_eq_sum (a b : List ℚ) (n : ℕ) (ha : a.length = n) (hb : b.length = n) :
    dotL a b = ∑ i in Finset.range n, a.getD i 0 * b.getD i 0 := by
  unfold dotL
  rw [list_sum_eq_sum_range]
  have hlen : (List.zipWith (· * ·) a b).length = n := by
    rw [List.length_zipWith, ha, hb, min_self]
  rw [hlen]
  refine Finset.sum_congr rfl (fun i hi => ?_)
  have hi' := Finset.mem_range.mp hi
  rw [List.getD_eq_getElem _ _ (by omega : i < (List.zipWith (· * ·) a b).length),
    List.getElem_zipWith,
    List.getD_eq_getElem _ _ (by omega : i < a.length),
    List.getD_eq_getElem _ _ (by omega : i < b.length)]

lemma list_map_range_sum (f : ℕ → ℚ) (n : ℕ) :
    ((List.range n).map f).sum = ∑ i in Finset.range n, f i := by
  rw [list_sum_eq_sum_range]
  simp only [List.length_map, List.length_range]
  refine Finset.sum_congr rfl (fun i hi => ?_)
  rw [List.getD_eq_getElem _ _ (by simp [Finset.mem_range.mp hi]), List.getElem_map,
    List.getElem_range]

lemma getD_map_polyEvalL (c : List ℚ) (t : List ℚ) (j : ℕ) (hj : j < t.length) :
    (t.map (polyEvalL c)).getD j 0 = polyEvalL c (t.getD j 0) := by
  rw [List.getD_eq_getElem _ _ (by simpa using hj), List.getElem_map,
    List.getD_eq_getElem _ _ hj]

lemma NewtonVM_eq_nbp (t : List ℚ) (r : ℕ) : ∀ i, NewtonVM t r i = nbp t (t.getD r 0) i := by
  intro i
  induction i with
  | zero => simp [NewtonVM, nbp]
  | succ i ih =>
      rw [NewtonVM, ih]
      unfold nbp
      rw [List.range_succ, List.map_append, List.prod_append]
      simp [mul_comm]

lemma NewtonVM_triangular (t : List ℚ) (r i : ℕ) (h : r < i) : NewtonVM t r i = 0 := by
  rw [NewtonVM_eq_nbp]
  unfold nbp
  apply List.prod_eq_zero
  refine List.mem_map.mpr ⟨r, List.mem_range.mpr h, ?_⟩
  rw [sub_self]

lemma nbp_succ_cons (xi : List ℚ) (x : ℚ) (i : ℕ) :
    nbp xi x (i+1) = (x - xi.headD 0) * nbp xi.tail x i := by
  unfold nbp
  rw [List.range_succ_eq_map, List.map_cons, List.prod_cons, List.map_map]
  congr 2
  · cases xi <;> rfl
  · refine List.map_congr_left (fun l _ => ?_)
    simp only [Function.comp_apply]
    congr 1
    cases xi <;> rfl

lemma Horner_newton_eq_sum (c : List ℚ) : ∀ (xi : List ℚ) (x : ℚ),
    Horner_newton c xi x = ∑ i in Finset.range c.length, c.getD i 0 * nbp xi x i := by
  induction c with
  | nil => intro xi x; simp [Horner_newton]
  | cons w ws ih =>
      intro xi x
      rw [Horner_newton, ih xi.tail x, List.length_cons, Finset.sum_range_succ']
      have h1 : ∀ i ∈ Finset.range ws.length,
          (w :: ws).getD (i+1) 0 * nbp xi x (i+1)
            = (x - xi.headD 0) * (ws.getD i 0 * nbp xi.tail x i) := by
        intro i _
        rw [nbp_succ_cons, List.getD_cons_succ]
        ring
      rw [Finset.sum_congr rfl h1, ← Finset.mul_sum]
      have h2 : (w :: ws).getD 0 0 * nbp xi x 0 = w := by simp [nbp]
      rw [h2]
      ring

lemma solveLowerTri_length (A : ℕ → ℕ → ℚ) (bv : ℕ → ℚ) :
    ∀ n, (solveLowerTri A bv n).length = n := by
  intro n
  induction n with
  | zero => rfl
  | succ n ih => rw [solveLowerTri]; simp [ih]

lemma solveLowerTri_getD_stable (A : ℕ → ℕ → ℚ) (bv : ℕ → ℚ) (n : ℕ) (i : ℕ)
    (hi : i < n) :
    (solveLowerTri A bv (n+1)).getD i 0 = (solveLowerTri A bv n).getD i 0 := by
  rw [solveLowerTri]
  have h : i < (solveLowerTri A bv n).length := by rw [solveLowerTri_length]; exact hi
  rw [List.getD_eq_getElem _ _ (by simp [solveLowerTri_length]; omega),
    List.getElem_append_left h, List.getD_eq_getElem _ _ h]

lemma solveLowerTri_correct (A : ℕ → ℕ → ℚ) (bv : ℕ → ℚ)
    (htri : ∀ r i, r < i → A r i = 0) :
    ∀ n, (∀ r < n, A r r ≠ 0) →
      ∀ r < n, ∑ i in Finset.range n, A r i * (solveLowerTri A bv n).getD i 0 = bv r := by
  intro n
  induction n with
  | zero => intro _ r hr; omega
  | succ n ih =>
      intro hdiag r hr
      have hstable : ∀ i < n,
          (solveLowerTri A bv (n+1)).getD i 0 = (solveLowerTri A bv n).getD i 0 :=
        fun i hi => solveLowerTri_getD_stable A bv n i hi
      have hlast : (solveLowerTri A bv (n+1)).getD n 0
          = (bv n - ∑ i in Finset.range n,
              A n i * (solveLowerTri A bv n).getD i 0) / A n n := by
        rw [solveLowerTri]
        have h : (solveLowerTri A bv n).length = n := solveLowerTri_length A bv n
        rw [List.getD_eq_getElem _ _ (by simp [h]),
          List.getElem_append_right (by omega)]
        simp [h, list_map_range_sum]
      rcases Nat.lt_succ_iff_lt_or_eq.mp hr with hr' | rfl
      · rw [Finset.sum_range_succ, htri r n hr', zero_mul, add_zero,
          Finset.sum_congr rfl
            (fun i hi => by rw [hstable i (Finset.mem_range.mp hi)])]
        exact ih (fun s hs => hdiag s (by omega)) r hr'
      · rw [Finset.sum_range_succ,
          Finset.sum_congr rfl
            (fun i hi => by rw [hstable i (Finset.mem_range.mp hi)]),
          hlast]
        have hA : A r r ≠ 0 := hdiag r (by omega)
        field_simp


lemma sorted_getD_lt (t : List ℚ) (hchain : t.Chain' (· < ·)) {l r : ℕ}
    (hlr : l < r) (hr : r < t.length) : t.getD l 0 < t.getD r 0 := by
  have hp : t.Pairwise (· < ·) := List.chain'_iff_pairwise.mp hchain
  rw [List.pairwise_iff_get] at hp
  have := hp ⟨l, by omega⟩ ⟨r, hr⟩ (Fin.mk_lt_mk.mpr hlr)
  rw [List.getD_eq_getElem _ _ (by omega : l < t.length),
    List.getD_eq_getElem _ _ hr]
  simpa [List.get_eq_getElem] using this

lemma lagrange_eval_node (t : List ℚ) (hchain : t.Chain' (· < ·))
    (j r : ℕ) (hr : r < t.length) :
    Horner_newton (lagrangeCoeffs t j) t (t.getD r 0) = if r = j then 1 else 0 := by
  rw [Horner_newton_eq_sum]
  have hlen : (lagrangeCoeffs t j).length = t.length := solveLowerTri_length _ _ _
  rw [hlen]
  have hdiag : ∀ s < t.length, NewtonVM t s s ≠ 0 := by
    intro s hs
    rw [NewtonVM_eq_nbp]
    unfold nbp
    apply ne_of_gt
    apply List.prod_pos
    intro x hx
    rw [List.mem_map] at hx
    obtain ⟨l, hl, rfl⟩ := hx
    have := sorted_getD_lt t hchain (List.mem_range.mp hl) hs
    linarith
  have hsys : ∑ i in Finset.range t.length,
      NewtonVM t r i * (lagrangeCoeffs t j).getD i 0 = if r = j then 1 else 0 :=
    solveLowerTri_correct (NewtonVM t) (fun r => if r = j then 1 else 0)
      (fun r i h => NewtonVM_triangular t r i h) t.length hdiag r hr
  rw [← hsys]
  refine Finset.sum_congr rfl (fun i _ => ?_)
  rw [NewtonVM_eq_nbp]
  ring

lemma polyEvalL_eq_sum (c : List ℚ) (x : ℚ) :
    polyEvalL c x = ∑ i in Finset.range c.length, c.getD i 0 * x ^ i := by
  induction c with
  | nil => simp [polyEvalL]
  | cons a tl ih =>
      show a + x * polyEvalL tl x = _
      rw [ih, List.length_cons, Finset.sum_range_succ']
      rw [Finset.mul_sum]
      simp only [List.getD_cons_succ, List.getD_cons_zero, pow_zero, mul_one, pow_succ]
      rw [add_comm]
      congr 1
      refine Finset.sum_congr rfl (fun i _ => ?_)
      ring

lemma ofList_eval (c : List ℚ) (x : ℚ) : (ofList c).eval x = polyEvalL c x := by
  rw [polyEvalL_eq_sum]
  unfold ofList
  rw [Polynomial.eval_finset_sum]
  refine Finset.sum_congr rfl (fun i _ => ?_)
  simp

lemma ofList_degree_lt (c : List ℚ) (n : ℕ) (h : c.length ≤ n) :
    (ofList c).degree < (n : WithBot ℕ) := by
  unfold ofList
  apply lt_of_le_of_lt (Polynomial.degree_sum_le _ _)
  refine (Finset.sup_lt_iff ?_).mpr ?_
  · exact WithBot.bot_lt_coe n
  intro i hi
  apply lt_of_le_of_lt (Polynomial.degree_C_mul_X_pow_le _ _)
  exact_mod_cast (by have := Finset.mem_range.mp hi; omega : i < n)

lemma list_map_range_prod (f : ℕ → ℚ) (n : ℕ) :
    ((List.range n).map f).prod = ∏ i in Finset.range n, f i := by
  induction n with
  | zero => simp
  | succ n ih =>
      rw [List.range_succ, List.map_append, List.prod_append, Finset.prod_range_succ, ih]
      simp

lemma newtonPoly_eval (c xi : List ℚ) (x : ℚ) :
    (newtonPoly c xi).eval x = Horner_newton c xi x := by
  rw [Horner_newton_eq_sum, newtonPoly, Polynomial.eval_finset_sum]
  refine Finset.sum_congr rfl (fun i _ => ?_)
  rw [Polynomial.eval_mul, Polynomial.eval_C, Polynomial.eval_prod]
  congr 1
  unfold nbp
  rw [list_map_range_prod]
  refine Finset.prod_congr rfl (fun l _ => ?_)
  simp

lemma newtonPoly_degree_lt (c xi : List ℚ) (n : ℕ) (hc : c.length ≤ n) :
    (newtonPoly c xi).degree < (n : WithBot ℕ) := by
  unfold newtonPoly
  apply lt_of_le_of_lt (Polynomial.degree_sum_le _ _)
  refine (Finset.sup_lt_iff ?_).mpr ?_
  · exact WithBot.bot_lt_coe n
  intro i hi
  have h1 : (Polynomial.C (c.getD i 0)
      * ∏ l in Finset.range i, (Polynomial.X - Polynomial.C (xi.getD l 0))).degree
      ≤ (∏ l in Finset.range i, (Polynomial.X - Polynomial.C (xi.getD l 0))).degree := by
    apply le_trans (Polynomial.degree_mul_le _ _)
    calc (Polynomial.C (c.getD i 0)).degree
          + (∏ l in Finset.range i, (Polynomial.X - Polynomial.C (xi.getD l 0))).degree
        ≤ 0 + (∏ l in Finset.range i, (Polynomial.X - Polynomial.C (xi.getD l 0))).degree :=
          add_le_add_right Polynomial.degree_C_le _
      _ = _ := zero_add _
  apply lt_of_le_of_lt h1
  rw [Polynomial.degree_prod]
  have h2 : ∀ l ∈ Finset.range i,
      (Polynomial.X - Polynomial.C (xi.getD l 0)).degree = (1 : WithBot ℕ) :=
    fun l _ => Polynomial.degree_X_sub_C _
  rw [Finset.sum_congr rfl h2, Finset.sum_const, Finset.card_range, nsmul_eq_mul, mul_one]
  exact_mod_cast (by have := Finset.mem_range.mp hi; omega : i < n)

lemma lagrange_reproduce (t : List ℚ) (hchain : t.Chain' (· < ·))
    (c : List ℚ) (hc : c.length ≤ t.length) (x : ℚ) :
    ∑ j in Finset.range t.length,
        polyEvalL c (t.getD j 0) * Horner_newton (lagrangeCoeffs t j) t x
      = polyEvalL c x := by
  set n := t.length with hn
  set P : Polynomial ℚ := ofList c with hP
  set Qp : Polynomial ℚ := ∑ j in Finset.range n,
    Polynomial.C (polyEvalL c (t.getD j 0)) * newtonPoly (lagrangeCoeffs t j) t with hQp
  have hQeval : ∀ y, Qp.eval y
      = ∑ j in Finset.range n,
          polyEvalL c (t.getD j 0) * Horner_newton (lagrangeCoeffs t j) t y := by
    intro y
    rw [hQp, Polynomial.eval_finset_sum]
    refine Finset.sum_congr rfl (fun j _ => ?_)
    rw [Polynomial.eval_mul, Polynomial.eval_C, newtonPoly_eval]
  have hinj : Set.InjOn (fun i => t.getD i 0) (Finset.range n) := by
    intro a ha b hb hab
    simp only [Finset.coe_range, Set.mem_Iio] at ha hb
    simp only at hab
    by_contra hne
    rcases Nat.lt_or_ge a b with h | h
    · exact absurd hab (ne_of_lt (sorted_getD_lt t hchain h hb))
    · have hba : b < a := by omega
      exact absurd hab.symm (ne_of_lt (sorted_getD_lt t hchain hba ha))
  have hdeg : (Qp - P).degree < ((Finset.range n).card : WithBot ℕ) := by
    rw [Finset.card_range]
    apply lt_of_le_of_lt (Polynomial.degree_sub_le _ _)
    rw [max_lt_iff]
    constructor
    · rw [hQp]
      apply lt_of_le_of_lt (Polynomial.degree_sum_le _ _)
      refine (Finset.sup_lt_iff ?_).mpr ?_
      · exact WithBot.bot_lt_coe n
      intro j _
      have h1 : (Polynomial.C (polyEvalL c (t.getD j 0))
          * newtonPoly (lagrangeCoeffs t j) t).degree
          ≤ (newtonPoly (lagrangeCoeffs t j) t).degree := by
        apply le_trans (Polynomial.degree_mul_le _ _)
        calc (Polynomial.C (polyEvalL c (t.getD j 0))).degree
              + (newtonPoly (lagrangeCoeffs t j) t).degree
            ≤ 0 + (newtonPoly (lagrangeCoeffs t j) t).degree :=
              add_le_add_right Polynomial.degree_C_le _
          _ = _ := zero_add _
      apply lt_of_le_of_lt h1
      apply newtonPoly_degree_lt
      exact le_of_eq (solveLowerTri_length _ _ _)
    · exact ofList_degree_lt c n hc
  have hvan : ∀ i ∈ Finset.range n, (Qp - P).eval (t.getD i 0) = 0 := by
    intro r hr
    rw [Polynomial.eval_sub, hQeval, hP, ofList_eval]
    have heach : ∀ j ∈ Finset.range n,
        polyEvalL c (t.getD j 0) * Horner_newton (lagrangeCoeffs t j) t (t.getD r 0)
          = if r = j then polyEvalL c (t.getD j 0) else 0 := by
      intro j _
      rw [lagrange_eval_node t hchain j r (Finset.mem_range.mp hr)]
      by_cases h : r = j <;> simp [h]
    rw [Finset.sum_congr rfl heach, Finset.sum_ite_eq]
    rw [if_pos hr, sub_self]
  have hzero : Qp - P = 0 :=
    Polynomial.eq_zero_of_degree_lt_of_eval_index_eq_zero (Finset.range n) hinj hdeg hvan
  have hQP : Qp = P := by
    have := sub_eq_zero.mp hzero
    exact this
  calc ∑ j in Finset.range n,
        polyEvalL c (t.getD j 0) * Horner_newton (lagrangeCoeffs t j) t x
      = Qp.eval x := (hQeval x).symm
    _ = P.eval x := by rw [hQP]
    _ = polyEvalL c x := ofList_eval c x


lemma getD_map (f : ℚ → ℚ) (l : List ℚ) (j : ℕ) (hj : j < l.length) :
    (l.map f).getD j 0 = f (l.getD j 0) := by
  rw [List.getD_eq_getElem _ _ (by simpa using hj), List.getElem_map,
    List.getD_eq_getElem _ _ hj]

lemma get_weights_length (t glRoots : List ℚ) (b : ℚ) :
    (get_weights t glRoots b).length = t.length := by
  unfold get_weights
  simp

lemma gauss_legendre_fst_length (roots : List ℚ) (n : ℕ) (b : ℚ) :
    (gauss_legendre roots n b).1.length = roots.length := by
  unfold gauss_legendre
  simp

lemma gauss_legendre_snd_length (roots : List ℚ) (n : ℕ) (b : ℚ) :
    (gauss_legendre roots n b).2.length = roots.length := by
  unfold gauss_legendre
  simp

lemma get_weights_getD (t glRoots : List ℚ) (b : ℚ) (j : ℕ) (hj : j < t.length) :
    (get_weights t glRoots b).getD j 0
      = dotL (gauss_legendre glRoots ((t.length + 1) / 2) b).2
          ((gauss_legendre glRoots ((t.length + 1) / 2) b).1.map
            (Horner_newton (lagrangeCoeffs t j) t)) := by
  unfold get_weights
  rw [List.getD_eq_getElem _ _ (by simp [hj]), List.getElem_map, List.getElem_range]
  rfl

lemma get_weights_exact (t glRoots : List ℚ) (b : ℚ)
    (hchain : t.Chain' (· < ·))
    (hsub : ∀ c : List ℚ, c.length ≤ t.length →
      dotL (gauss_legendre glRoots ((t.length + 1) / 2) b).2
        ((gauss_legendre glRoots ((t.length + 1) / 2) b).1.map (polyEvalL c))
        = integL c 0 b)
    (c : List ℚ) (hc : c.length ≤ t.length) :
    dotL (get_weights t glRoots b) (t.map (polyEvalL c)) = integL c 0 b := by
  set sn := (gauss_legendre glRoots ((t.length + 1) / 2) b).1 with hsn
  set sw := (gauss_legendre glRoots ((t.length + 1) / 2) b).2 with hsw
  have hlsn : sn.length = glRoots.length := gauss_legendre_fst_length _ _ _
  have hlsw : sw.length = glRoots.length := gauss_legendre_snd_length _ _ _
  rw [dotL_eq_sum _ _ t.length (get_weights_length t glRoots b) (by simp)]
  have h1 : ∀ j ∈ Finset.range t.length,
      (get_weights t glRoots b).getD j 0 * (t.map (polyEvalL c)).getD j 0
        = ∑ m in Finset.range glRoots.length,
            sw.getD m 0 * Horner_newton (lagrangeCoeffs t j) t (sn.getD m 0)
              * polyEvalL c (t.getD j 0) := by
    intro j hj
    have hj' := Finset.mem_range.mp hj
    rw [get_weights_getD t glRoots b j hj', getD_map (polyEvalL c) t j hj']
    rw [dotL_eq_sum _ _ glRoots.length hlsw (by rw [List.length_map, hlsn])]
    rw [Finset.sum_mul]
    refine Finset.sum_congr rfl (fun m hm => ?_)
    have hm' : m < sn.length := by rw [hlsn]; exact Finset.mem_range.mp hm
    rw [getD_map (Horner_newton (lagrangeCoeffs t j) t) sn m hm']
  rw [Finset.sum_congr rfl h1, Finset.sum_comm]
  have h2 : ∀ m ∈ Finset.range glRoots.length,
      ∑ j in Finset.range t.length,
          sw.getD m 0 * Horner_newton (lagrangeCoeffs t j) t (sn.getD m 0)
            * polyEvalL c (t.getD j 0)
        = sw.getD m 0 * polyEvalL c (sn.getD m 0) := by
    intro m _
    have hrep := lagrange_reproduce t hchain c hc (sn.getD m 0)
    calc ∑ j in Finset.range t.length,
            sw.getD m 0 * Horner_newton (lagrangeCoeffs t j) t (sn.getD m 0)
              * polyEvalL c (t.getD j 0)
        = sw.getD m 0 * ∑ j in Finset.range t.length,
            polyEvalL c (t.getD j 0) * Horner_newton (lagrangeCoeffs t j) t (sn.getD m 0) := by
          rw [Finset.mul_sum]
          refine Finset.sum_congr rfl (fun j _ => ?_)
          ring
      _ = sw.getD m 0 * polyEvalL c (sn.getD m 0) := by rw [hrep]
  rw [Finset.sum_congr rfl h2]
  have h3 : ∑ m in Finset.range glRoots.length, sw.getD m 0 * polyEvalL c (sn.getD m 0)
      = dotL sw (sn.map (polyEvalL c)) := by
    rw [dotL_eq_sum sw (sn.map (polyEvalL c)) glRoots.length hlsw
      (by rw [List.length_map, hlsn])]
    refine Finset.sum_congr rfl (fun m hm => ?_)
    have hm' : m < sn.length := by rw [hlsn]; exact Finset.mem_range.mp hm
    rw [getD_map (polyEvalL c) sn m hm']
  rw [h3]
  exact hsub c hc

lemma Qmatrix_length (t glRoots : List ℚ) : (Qmatrix t glRoots).length = t.length := by
  unfold Qmatrix
  simp

lemma Qmatrix_row (t glRoots : List ℚ) (m : ℕ) (hm : m < t.length) :
    (Qmatrix t glRoots).getD m [] = get_weights t glRoots (t.getD m 0) := by
  unfold Qmatrix
  rw [List.getD_eq_getElem _ _ (by simpa using hm), List.getElem_map,
    List.getD_eq_getElem _ _ hm]

lemma Smatrix_row_zero (Q : List (List ℚ)) (h : 0 < Q.length) :
    (Smatrix Q).getD 0 [] = Q.getD 0 [] := by
  unfold Smatrix
  rw [List.getD_eq_getElem _ _ (by simpa using h), List.getElem_map, List.getElem_range]
  rw [if_pos rfl]

lemma Smatrix_row_succ (Q : List (List ℚ)) (m : ℕ) (hm : m < Q.length) (h0 : 0 < m) :
    (Smatrix Q).getD m []
      = List.zipWith (· - ·) (Q.getD m []) (Q.getD (m-1) []) := by
  unfold Smatrix
  rw [List.getD_eq_getElem _ _ (by simpa using hm), List.getElem_map, List.getElem_range]
  rw [if_neg (by omega)]

lemma dotL_zipWith_sub (a b v : List ℚ) (n : ℕ)
    (ha : a.length = n) (hb : b.length = n) (hv : v.length = n) :
    dotL (List.zipWith (· - ·) a b) v = dotL a v - dotL b v := by
  rw [dotL_eq_sum _ _ n (by rw [List.length_zipWith, ha, hb, min_self]) hv,
    dotL_eq_sum a v n ha hv, dotL_eq_sum b v n hb hv, ← Finset.sum_sub_distrib]
  refine Finset.sum_congr rfl (fun i hi => ?_)
  have hi' := Finset.mem_range.mp hi
  rw [List.getD_eq_getElem _ _
      (by rw [List.length_zipWith, ha, hb, min_self]; exact hi'),
    List.getElem_zipWith,
    List.getD_eq_getElem a _ (by omega : i < a.length),
    List.getD_eq_getElem b _ (by omega : i < b.length)]
  ring

lemma integL_split (c : List ℚ) (a b : ℚ) :
    integL c a b = integL c 0 b - integL c 0 a := by
  unfold integL
  rw [list_map_range_sum, list_map_range_sum, list_map_range_sum,
    ← Finset.sum_sub_distrib]
  refine Finset.sum_congr rfl (fun i _ => ?_)
  ring

lemma polyEvalL_one (x : ℚ) : polyEvalL [1] x = 1 := by
  simp [polyEvalL]

lemma integL_one (b : ℚ) : integL [1] 0 b = b := by
  unfold integL
  simp [List.range_succ]

lemma dotL_row_sum (row : List ℚ) (t : List ℚ) (h : row.length = t.length) :
    dotL row (t.map (polyEvalL [1])) = row.sum := by
  rw [dotL_eq_sum row _ t.length h (by simp), list_sum_eq_sum_range, h]
  refine Finset.sum_congr rfl (fun j hj => ?_)
  have hj' := Finset.mem_range.mp hj
  rw [getD_map (polyEvalL [1]) t j hj', polyEvalL_one, mul_one]

/-- C4: for every node count `M = t.length >= 1` and strictly increasing
node list `t` (hence distinct nodes), provided the `ceil(M/2)`-point
Gauss-Legendre sub-quadrature used inside `get_weights` is exact for
polynomials of degree `<= M-1` (`hsub` — true of the exact Legendre roots in
exact arithmetic; the numeric roots come from scipy), the constructed
matrices integrate every polynomial of degree `<= M-1` exactly:
row `m` of `Q` over `[0, node_m]`, row `0` of `S` over `[0, node_0]`,
row `m > 0` of `S` over `[node_{m-1}, node_m]`, and `Qfin` over `[0, dt]`.
In particular each row sum of `Q` equals the corresponding node's distance
from `0`; for the Gauss-Radau `M = 3`, `dt = 1` configuration the last node
is `1` (see `C1_nodes`), so the sum of `Q[2,:]` equals `1`. -/
theorem C4_integration_matrices (t glRoots : List ℚ) (dt : ℚ)
    (h0 : 0 < t.length) (hchain : t.Chain' (· < ·))
    (hsub : ∀ (b : ℚ) (c : List ℚ), c.length ≤ t.length →
      dotL (gauss_legendre glRoots ((t.length + 1) / 2) b).2
        ((gauss_legendre glRoots ((t.length + 1) / 2) b).1.map (polyEvalL c))
        = integL c 0 b) :
    (∀ m < t.length, ∀ c : List ℚ, c.length ≤ t.length →
        dotL ((Qmatrix t glRoots).getD m []) (t.map (polyEvalL c))
          = integL c 0 (t.getD m 0)) ∧
    (∀ c : List ℚ, c.length ≤ t.length →
        dotL ((Smatrix (Qmatrix t glRoots)).getD 0 []) (t.map (polyEvalL c))
          = integL c 0 (t.getD 0 0)) ∧
    (∀ m, 0 < m → m < t.length → ∀ c : List ℚ, c.length ≤ t.length →
        dotL ((Smatrix (Qmatrix t glRoots)).getD m []) (t.map (polyEvalL c))
          = integL c (t.getD (m-1) 0) (t.getD m 0)) ∧
    (∀ c : List ℚ, c.length ≤ t.length →
        dotL (Qfinal t glRoots dt) (t.map (polyEvalL c)) = integL c 0 dt) ∧
    (∀ m < t.length, ((Qmatrix t glRoots).getD m []).sum = t.getD m 0) := by
  have hQ : ∀ m < t.length, ∀ c : List ℚ, c.length ≤ t.length →
      dotL ((Qmatrix t glRoots).getD m []) (t.map (polyEvalL c))
        = integL c 0 (t.getD m 0) := by
    intro m hm c hc
    rw [Qmatrix_row t glRoots m hm]
    exact get_weights_exact t glRoots (t.getD m 0) hchain (hsub _) c hc
  refine ⟨hQ, ?_, ?_, ?_, ?_⟩
  · intro c hc
    have hQlen : 0 < (Qmatrix t glRoots).length := by
      rw [Qmatrix_length]; exact h0
    rw [Smatrix_row_zero _ hQlen]
    exact hQ 0 h0 c hc
  · intro m hm0 hm c hc
    have hQlen : m < (Qmatrix t glRoots).length := by
      rw [Qmatrix_length]; exact hm
    have hlen1 : ((Qmatrix t glRoots).getD m []).length = t.length := by
      rw [Qmatrix_row t glRoots m hm, get_weights_length]
    have hlen2 : ((Qmatrix t glRoots).getD (m-1) []).length = t.length := by
      rw [Qmatrix_row t glRoots (m-1) (by omega), get_weights_length]
    rw [Smatrix_row_succ _ m hQlen hm0,
      dotL_zipWith_sub _ _ _ t.length hlen1 hlen2 (by simp),
      hQ m hm c hc, hQ (m-1) (by omega) c hc,
      integL_split c (t.getD (m-1) 0) (t.getD m 0)]
  · intro c hc
    unfold Qfinal
    exact get_weights_exact t glRoots dt hchain (hsub dt) c hc
  · intro m hm
    have h1 : ((Qmatrix t glRoots).getD m []).length = t.length := by
      rw [Qmatrix_row t glRoots m hm, get_weights_length]
    rw [← dotL_row_sum _ t h1, hQ m hm [1] (by simpa using h0), integL_one]

lemma midpoint_exact (b : ℚ) (c : List ℚ) (hc : c.length ≤ 2) :
    dotL (gauss_legendre [0] 1 b).2
      ((gauss_legendre [0] 1 b).1.map (polyEvalL c)) = integL c 0 b := by
  rcases c with _ | ⟨a0, c⟩
  · norm_num [gauss_legendre, dotL, integL, polyEvalL, derivL, legendreL]
  rcases c with _ | ⟨a1, c⟩
  · norm_num [gauss_legendre, dotL, integL, polyEvalL, derivL, legendreL,
      List.range_succ]
    ring
  rcases c with _ | ⟨a2, c⟩
  · norm_num [gauss_legendre, dotL, integL, polyEvalL, derivL, legendreL,
      List.range_succ]
    ring
  · simp only [List.length_cons] at hc
    omega

/-- Witness for `C4_integration_matrices` at the concrete configuration
`t = [1/3, 1]` (the exact Gauss-Radau `M = 2` nodes for `dt = 1`),
`glRoots = [0]` (the exact root of `P_1`), `dt = 1`; the sub-quadrature
exactness hypothesis is discharged by `midpoint_exact` (the mapped 1-point
rule is the midpoint rule, exact for degree `<= 1`). -/
theorem C4_witness :
    (∀ m < 2, ∀ c : List ℚ, c.length ≤ 2 →
        dotL ((Qmatrix [1/3, 1] [0]).getD m [])
            (([1/3, 1] : List ℚ).map (polyEvalL c))
          = integL c 0 (([1/3, 1] : List ℚ).getD m 0)) ∧
    (∀ c : List ℚ, c.length ≤ 2 →
        dotL ((Smatrix (Qmatrix [1/3, 1] [0])).getD 0 [])
            (([1/3, 1] : List ℚ).map (polyEvalL c))
          = integL c 0 (([1/3, 1] : List ℚ).getD 0 0)) ∧
    (∀ m, 0 < m → m < 2 → ∀ c : List ℚ, c.length ≤ 2 →
        dotL ((Smatrix (Qmatrix [1/3, 1] [0])).getD m [])
            (([1/3, 1] : List ℚ).map (polyEvalL c))
          = integL c (([1/3, 1] : List ℚ).getD (m-1) 0)
              (([1/3, 1] : List ℚ).getD m 0)) ∧
    (∀ c : List ℚ, c.length ≤ 2 →
        dotL (Qfinal [1/3, 1] [0] 1) (([1/3, 1] : List ℚ).map (polyEvalL c))
          = integL c 0 1) ∧
    (∀ m < 2, ((Qmatrix [1/3, 1] [0]).getD m []).sum
        = ([1/3, 1] : List ℚ).getD m 0) :=
  C4_integration_matrices [1/3, 1] [0] 1 (by norm_num)
    (by norm_num [List.chain'_cons])
    (fun b c hc => midpoint_exact b c (by simpa using hc))

/-- For `M >= 1` the error path of `Smatrix_np` is not taken and it builds
exactly the matrix of `Smatrix`. -/
lemma Smatrix_np_pos (Q : List (List ℚ)) (h : 0 < Q.length) :
    Smatrix_np Q = .ok (Smatrix Q) := by
  unfold Smatrix_np npGetRow
  rw [if_pos h]
  show Except.ok _ = _
  congr 1
  apply List.ext_getElem
  · unfold Smatrix
    simp
    omega
  intro i h1 h2
  unfold Smatrix
  rw [List.getElem_map, List.getElem_range]
  cases i with
  | zero =>
      rw [List.getElem_cons_zero, if_pos rfl]
  | succ j =>
      rw [List.getElem_cons_succ, List.getElem_map, List.getElem_range']
      rw [if_neg (by omega)]
      have e : 1 + 1 * j = j + 1 := by omega
      rw [e]

/-- C8 (code evaluated at the failing input): `SDC.__init__` performs no
validation of `M` anywhere.  With `M = 0` and `quadrature = "gauss-legendre"`
(so scipy returns the empty root list), node generation and `Qmatrix`
PROCEED, producing an (empty) node array and a `0 x 0` `Q` — contradicting
the claim that no nodes or matrices are produced for `M < 1` — and the
construction then aborts with an accidental numpy `IndexError` at the
unconditional row-0 read `self.S[0, :] = deepcopy(self.Q[0, :])` inside
`Smatrix` (sdc.py line 431), before `Qfinal` ever runs: not the eager
configuration-error rejection the claim (and spec section 4.1,
"must reject M < 1 with a configuration error") requires. -/
theorem C8_m_zero_not_validated :
    create_nodes 1 .gaussLegendre [] = [] ∧
    Qmatrix ([] : List ℚ) [] = [] ∧
    sdcSetup 1 .gaussLegendre [] []
      = .error "IndexError: index is out of bounds for axis 0" :=
  ⟨rfl, rfl, rfl⟩

end Gusto
